import Mathlib

/-!
Verification of the `coulomb` electrostatics library: the real-space Ewald
short-range scheme (`src/coulomb/src/pairwise/ewald.rs`) and the relative
permittivity models (`src/src/permittivity.rs`), embedded over the real
numbers.  Floating-point arithmetic in the source is idealised as real
arithmetic; in particular the stored double-precision constant `SQRT_PI =
1.7724538509055159` is idealised as the exact `Real.sqrt Real.pi`, consistent
with idealising every other floating-point operation.
-/

namespace Coulomb

/-- Modelled from the spec: the complementary-error-function damping used by
`RealSpaceEwald`.  The source calls `erfc_x` from `crate::math`, which is not
under `src/`; the spec describes it as the complementary error function, so we
use the textbook definition `erfc x = 1 - (2/√π)·∫₀ˣ exp(-t²) dt`.  We first
define the error function `erf`. -/
noncomputable def erf (x : ℝ) : ℝ :=
2 / Real.sqrt Real.pi * ∫ t in (0:ℝ)..x, Real.exp (-t ^ 2)

/-- Modelled from the spec: the complementary error function (see `erf`). -/
noncomputable def erfc_x (x : ℝ) : ℝ :=
1 - erf x

/-- Self-energy prefactors: an optional monopole and an optional dipole
coefficient (`SelfEnergyPrefactors` in the pairwise module). -/
structure SelfEnergyPrefactors where
  monopole : Option ℝ
  dipole : Option ℝ

/-- The `RealSpaceEwald` scheme record from `ewald.rs`: cutoff, raw alpha,
reduced alpha `eta = alpha * cutoff`, and optional reduced screening `zeta`. -/
structure RealSpaceEwald where
  cutoff : ℝ
  _alpha : ℝ
  eta : ℝ
  zeta : Option ℝ

namespace RealSpaceEwald

/-- The constant `SQRT_PI` of the source (`1.7724538509055159_f64`), idealised
as the exact square root of π. -/
noncomputable def SQRT_PI : ℝ :=
Real.sqrt Real.pi

/-- Constructor `RealSpaceEwald::new(cutoff, alpha, debye_length)`. -/
noncomputable def new (cutoff alpha : ℝ) (debye_length : Option ℝ) : RealSpaceEwald :=
{ cutoff := cutoff
  _alpha := alpha
  eta := alpha * cutoff
  zeta := debye_length.map fun d => cutoff / d }

/-- Constructor `RealSpaceEwald::new_without_salt(cutoff, alpha)`. -/
noncomputable def new_without_salt (cutoff alpha : ℝ) : RealSpaceEwald :=
new cutoff alpha none

/-- Accessor `kappa()`: the inverse Debye length if salt is present, otherwise `None`. -/
noncomputable def kappa (s : RealSpaceEwald) : Option ℝ :=
s.zeta.map fun z => z / s.cutoff

/-- Function `short_range_f0` from `ewald.rs`. -/
noncomputable def short_range_f0 (s : RealSpaceEwald) (q : ℝ) : ℝ :=
match s.zeta with
| some zeta =>
    0.5 * (erfc_x (s.eta * q + zeta / (2 * s.eta)) * Real.exp (2 * zeta * q)
      + erfc_x (s.eta * q - zeta / (2 * s.eta)))
| none => erfc_x (s.eta * q)

/-- Function `short_range_f1` from `ewald.rs`. -/
noncomputable def short_range_f1 (s : RealSpaceEwald) (q : ℝ) : ℝ :=
match s.zeta with
| some zeta =>
    -2 * s.eta / SQRT_PI * Real.exp (-(s.eta * q - zeta / (2 * s.eta)) ^ 2)
      + zeta * erfc_x (s.eta * q + zeta / (2 * s.eta)) * Real.exp (2 * zeta * q)
| none => -2 * s.eta / SQRT_PI * Real.exp (-s.eta ^ 2 * q ^ 2)

/-- Function `short_range_f2` from `ewald.rs`. -/
noncomputable def short_range_f2 (s : RealSpaceEwald) (q : ℝ) : ℝ :=
match s.zeta with
| some zeta =>
    4 * s.eta ^ 2 / SQRT_PI * (s.eta * q - zeta / s.eta)
        * Real.exp (-(s.eta * q - zeta / (2 * s.eta)) ^ 2)
      + 2 * zeta ^ 2 * erfc_x (s.eta * q + zeta / (2 * s.eta)) * Real.exp (2 * zeta * q)
| none => 4 * s.eta ^ 2 / SQRT_PI * (s.eta * q) * Real.exp (-(s.eta * q) ^ 2)

/-- Function `short_range_f3` from `ewald.rs`. -/
noncomputable def short_range_f3 (s : RealSpaceEwald) (q : ℝ) : ℝ :=
match s.zeta with
| some zeta =>
    4 * s.eta ^ 3 / SQRT_PI
        * (1 - 2 * (s.eta * q - zeta / s.eta) * (s.eta * q - zeta / (2 * s.eta))
            - zeta ^ 2 / s.eta ^ 2)
        * Real.exp (-(s.eta * q - zeta / (2 * s.eta)) ^ 2)
      + 4 * zeta ^ 3 * erfc_x (s.eta * q + zeta / (2 * s.eta)) * Real.exp (2 * zeta * q)
| none =>
    4 * s.eta ^ 3 / SQRT_PI * (1 - 2 * (s.eta * q) ^ 2) * Real.exp (-(s.eta * q) ^ 2)

/-- Function `self_energy_prefactors` from `ewald.rs` (the source reads
`self.zeta.unwrap_or(0.0)`, embedded as `s.zeta.getD 0`). -/
noncomputable def self_energy_prefactors (s : RealSpaceEwald) : SelfEnergyPrefactors :=
{ monopole := some
    (-s.eta / SQRT_PI
      * (Real.exp (-(s.zeta.getD 0) ^ 2 / 4 / s.eta ^ 2)
        - SQRT_PI * s.zeta.getD 0 / (2 * s.eta) * erfc_x (s.zeta.getD 0 / (2 * s.eta))))
  dipole := some
    (-s.eta ^ 3 / SQRT_PI * 2 / 3
      * (SQRT_PI * (s.zeta.getD 0) ^ 3 / 4 / s.eta ^ 3 * erfc_x (s.zeta.getD 0 / (2 * s.eta))
        + (1 - (s.zeta.getD 0) ^ 2 / 2 / s.eta ^ 2)
          * Real.exp (-(s.zeta.getD 0) ^ 2 / 4 / s.eta ^ 2))) }

/-- Modelled from the spec: `MultipoleEnergy::self_energy` (the generic
multipole-algebra layer is not under `src/`).  Spec §4.3: `self_energy(charges,
dipoles) = monopole_prefactor · Σ qᵢ² / r꜀ + dipole_prefactor · Σ μᵢ² / r꜀³`,
an absent prefactor contributing zero. -/
noncomputable def self_energy (s : RealSpaceEwald) (charges dipoles : List ℝ) : ℝ :=
(match s.self_energy_prefactors.monopole with
 | some c => c * (charges.map fun x => x ^ 2).sum / s.cutoff
 | none => 0)
+
(match s.self_energy_prefactors.dipole with
 | some c => c * (dipoles.map fun x => x ^ 2).sum / s.cutoff ^ 3
 | none => 0)

end RealSpaceEwald

namespace Plain

/-- Modelled from the spec: the `Plain` scheme's switching function `S(q) = 1`
(spec §4.2 scheme catalog; `plain.rs` is declared in the pairwise module but
its source is not under `src/`). -/
def short_range_f0 (_q : ℝ) : ℝ :=
1

end Plain

/-- The `EmpiricalPermittivity` record from `permittivity.rs`: five
coefficients and a closed temperature interval of validity. -/
structure EmpiricalPermittivity where
  coeffs : Fin 5 → ℝ
  temperature_interval : ℝ × ℝ

namespace EmpiricalPermittivity

/-- Constructor `EmpiricalPermittivity::new`. -/
def new (coeffs : Fin 5 → ℝ) (temperature_interval : ℝ × ℝ) : EmpiricalPermittivity :=
{ coeffs := coeffs, temperature_interval := temperature_interval }

/-- Method `RelativePermittivity::permittivity` for `EmpiricalPermittivity`: an error
outside the closed validity interval, otherwise the Neau–Raspo closed form. -/
noncomputable def permittivity (m : EmpiricalPermittivity) (temperature : ℝ) :
    Except String ℝ :=
if temperature < m.temperature_interval.1 ∨ temperature > m.temperature_interval.2 then
  Except.error "Temperature out of range for permittivity model"
else
  Except.ok (m.coeffs 0 + m.coeffs 1 * temperature + m.coeffs 2 * temperature ^ 2
    + m.coeffs 3 / temperature + m.coeffs 4 * Real.log temperature)

end EmpiricalPermittivity

/-- The water permittivity model `WATER` from `permittivity.rs`. -/
noncomputable def WATER : EmpiricalPermittivity :=
EmpiricalPermittivity.new ![-1664.4988, -0.884533, 0.0003635, 64839.1736, 308.3394]
  (273.0, 403.0)

/-- The `ConstantPermittivity` record from `permittivity.rs` (its single field
is called `permittivity` in the source; renamed `eps` here so that the trait
method `permittivity` can keep its source name). -/
structure ConstantPermittivity where
  eps : ℝ

namespace ConstantPermittivity

/-- Constructor `ConstantPermittivity::new`. -/
def new (permittivity : ℝ) : ConstantPermittivity :=
{ eps := permittivity }

/-- Method `RelativePermittivity::permittivity` for `ConstantPermittivity`: always
succeeds with the stored constant, ignoring the temperature argument. -/
def permittivity (c : ConstantPermittivity) (_ : ℝ) : Except String ℝ :=
Except.ok c.eps

end ConstantPermittivity

/-- The provided (never overridden) trait method
`RelativePermittivity::temperature_is_ok`, expressed for an arbitrary
implementor through its `permittivity` function:
`self.permittivity(temperature).is_ok()`. -/
def temperature_is_ok (permittivity : ℝ → Except String ℝ) (temperature : ℝ) : Bool :=
(permittivity temperature).isOk

/-! ### Basic facts about the error function -/

/-- Value of the error function at zero: `erf 0 = 0`. -/
theorem erf_zero : erf 0 = 0 := by
  simp [erf]

/-- The error function is odd. -/
theorem erf_neg (x : ℝ) : erf (-x) = -erf x := by
  have h1 : (∫ t in (0:ℝ)..x, Real.exp (-t ^ 2))
      = ∫ t in (-x)..(0:ℝ), Real.exp (-t ^ 2) := by
    have h := intervalIntegral.integral_comp_neg (a := (0:ℝ)) (b := x)
      fun t => Real.exp (-t ^ 2)
    simpa [neg_sq] using h
  have h2 : (∫ t in (0:ℝ)..(-x), Real.exp (-t ^ 2))
      = -∫ t in (-x)..(0:ℝ), Real.exp (-t ^ 2) := by
    rw [intervalIntegral.integral_symm]
  unfold erf
  rw [h2, ← h1]
  ring

/-- Value of the complementary error function at zero: `erfc 0 = 1`. -/
theorem erfc_x_zero : erfc_x 0 = 1 := by
  simp [erfc_x, erf_zero]

/-- Reflection identity `erfc x + erfc (-x) = 2`. -/
theorem erfc_x_add_neg (x : ℝ) : erfc_x x + erfc_x (-x) = 2 := by
  simp [erfc_x, erf_neg]
  ring

/-- If screening is present, the switching function equals `1` at `q = 0`. -/
theorem short_range_f0_zero_of_some (s : RealSpaceEwald) (z : ℝ) (hz : s.zeta = some z) :
    s.short_range_f0 0 = 1 := by
  have h := erfc_x_add_neg (z / (2 * s.eta))
  simp only [RealSpaceEwald.short_range_f0, hz, mul_zero, zero_add, zero_sub, mul_one,
    Real.exp_zero]
  linarith

/-! ### Derivatives of the error function -/

/-- The error function has derivative `2/√π · exp(-x²)`. -/
theorem hasDerivAt_erf (x : ℝ) :
    HasDerivAt erf (2 / Real.sqrt Real.pi * Real.exp (-x ^ 2)) x := by
  have hc : Continuous fun t : ℝ => Real.exp (-t ^ 2) :=
    Real.continuous_exp.comp (continuous_pow 2).neg
  have h := (hc.integral_hasStrictDerivAt 0 x).hasDerivAt
  unfold erf
  exact h.const_mul (2 / Real.sqrt Real.pi)

/-- The complementary error function has derivative `-2/√π · exp(-x²)`. -/
theorem hasDerivAt_erfc_x (x : ℝ) :
    HasDerivAt erfc_x (-(2 / Real.sqrt Real.pi * Real.exp (-x ^ 2))) x := by
  unfold erfc_x
  exact (hasDerivAt_erf x).const_sub 1

/-- Derivative of `u ↦ a·u + b`. -/
theorem hasDerivAt_affine (a b x : ℝ) : HasDerivAt (fun u : ℝ => a * u + b) a x := by
  simpa using ((hasDerivAt_id x).const_mul a).add_const b

/-- Derivative of `u ↦ a·u - b`. -/
theorem hasDerivAt_affine_sub (a b x : ℝ) : HasDerivAt (fun u : ℝ => a * u - b) a x := by
  simpa using ((hasDerivAt_id x).const_mul a).sub_const b

/-! ### Rational bounds for the constants in the self-energy reference values -/

/-- Rational bounds on `√π`, from the 20-digit bounds on `π`. -/
theorem sqrt_pi_bounds :
    (1.7724538509 : ℝ) ≤ Real.sqrt Real.pi ∧ Real.sqrt Real.pi ≤ (1.7724538510 : ℝ) := by
  constructor
  · rw [Real.le_sqrt (by norm_num) Real.pi_pos.le]
    have h : ((1.7724538509 : ℝ)) ^ 2 ≤ 3.14159265358979323846 := by norm_num
    linarith [Real.pi_gt_d20]
  · refine le_of_lt ((Real.sqrt_lt' (by norm_num : (0:ℝ) < 1.7724538510)).mpr ?_)
    have h : (3.14159265358979323847 : ℝ) < (1.7724538510 : ℝ) ^ 2 := by norm_num
    linarith [Real.pi_lt_d20]

/-- Rational bounds on `exp(-25/529)` via a degree-4 Taylor partial sum. -/
theorem exp_neg_25_529_bounds :
    (0.95384033 : ℝ) ≤ Real.exp (-(25 / 529)) ∧ Real.exp (-(25 / 529)) ≤ (0.95384035 : ℝ) := by
  have habs : |(-(25 / 529) : ℝ)| ≤ 1 := by
    rw [abs_neg, abs_of_nonneg (by norm_num : (0:ℝ) ≤ 25 / 529)]
    norm_num
  have hb := Real.exp_bound habs (by norm_num : 0 < 5)
  rw [abs_le] at hb
  obtain ⟨h1, h2⟩ := hb
  have habs' : |(-(25 / 529) : ℝ)| = 25 / 529 := by
    rw [abs_neg]
    exact abs_of_nonneg (by norm_num)
  rw [habs'] at h1 h2
  have hsum : ∑ m ∈ Finset.range 5, (-(25 / 529) : ℝ) ^ m / m.factorial
      = 1 - 25 / 529 + (25 / 529) ^ 2 / 2 - (25 / 529) ^ 3 / 6 + (25 / 529) ^ 4 / 24 := by
    simp [Finset.sum_range_succ, Nat.factorial]
    ring
  rw [hsum] at h1 h2
  norm_num [Nat.succ_eq_add_one, Nat.factorial] at h1 h2
  constructor <;> linarith

/-- On `[0, 5/23]`, the Gaussian `exp(-t²)` stays within `(25/529)⁴·5/96` of
its degree-3 Taylor polynomial in `t²`. -/
theorem gauss_poly_bound (t : ℝ) (ht : t ∈ Set.Icc (0:ℝ) (5 / 23)) :
    |Real.exp (-t ^ 2) - (1 - t ^ 2 + t ^ 4 / 2 - t ^ 6 / 6)|
      ≤ (25 / 529 : ℝ) ^ 4 * (5 / 96) := by
  obtain ⟨h0, h1⟩ := ht
  have hx : |(-t ^ 2 : ℝ)| ≤ 1 := by
    rw [abs_neg, abs_of_nonneg (by positivity : (0:ℝ) ≤ t ^ 2)]
    nlinarith
  have hb := Real.exp_bound hx (by norm_num : 0 < 4)
  have hsum : ∑ m ∈ Finset.range 4, (-t ^ 2 : ℝ) ^ m / m.factorial
      = 1 - t ^ 2 + t ^ 4 / 2 - t ^ 6 / 6 := by
    simp [Finset.sum_range_succ, Nat.factorial]
    ring
  rw [hsum] at hb
  have habs : |(-t ^ 2 : ℝ)| = t ^ 2 := by
    rw [abs_neg]
    exact abs_of_nonneg (by positivity)
  rw [habs] at hb
  norm_num [Nat.succ_eq_add_one, Nat.factorial] at hb
  refine le_trans hb ?_
  have ht2 : t ^ 2 ≤ 25 / 529 := by nlinarith
  have hpow : (t ^ 2) ^ 4 ≤ (25 / 529 : ℝ) ^ 4 :=
    pow_le_pow_left₀ (by positivity) ht2 4
  nlinarith [hpow]

/-- Closed form for the integral of the degree-3 Taylor polynomial in `t²`. -/
theorem integral_gauss_poly (x : ℝ) :
    ∫ t in (0:ℝ)..x, (1 - t ^ 2 + t ^ 4 / 2 - t ^ 6 / 6 : ℝ)
      = x - x ^ 3 / 3 + x ^ 5 / 10 - x ^ 7 / 42 := by
  have hF : ∀ t : ℝ, HasDerivAt (fun u : ℝ => u - u ^ 3 / 3 + u ^ 5 / 10 - u ^ 7 / 42)
      (1 - t ^ 2 + t ^ 4 / 2 - t ^ 6 / 6) t := by
    intro t
    have h := (((hasDerivAt_id t).sub ((hasDerivAt_pow 3 t).div_const 3)).add
      ((hasDerivAt_pow 5 t).div_const 10)).sub ((hasDerivAt_pow 7 t).div_const 42)
    convert h using 1
    push_cast
    ring
  rw [intervalIntegral.integral_eq_sub_of_hasDerivAt (fun t _ => hF t)
    ((Continuous.intervalIntegrable (by fun_prop) 0 x))]
  norm_num

/-- Rational bounds on `∫₀^{5/23} exp(-t²) dt`. -/
theorem gauss_integral_bounds :
    (0.21401468 : ℝ) ≤ (∫ t in (0:ℝ)..(5 / 23), Real.exp (-t ^ 2)) ∧
    (∫ t in (0:ℝ)..(5 / 23), Real.exp (-t ^ 2)) ≤ (0.21401481 : ℝ) := by
  have hcg : Continuous fun t : ℝ => Real.exp (-t ^ 2) :=
    Real.continuous_exp.comp (continuous_pow 2).neg
  have hcpu : Continuous fun t : ℝ =>
      (1 - t ^ 2 + t ^ 4 / 2 - t ^ 6 / 6) + (25 / 529 : ℝ) ^ 4 * (5 / 96) := by fun_prop
  have hcpl : Continuous fun t : ℝ =>
      (1 - t ^ 2 + t ^ 4 / 2 - t ^ 6 / 6) - (25 / 529 : ℝ) ^ 4 * (5 / 96) := by fun_prop
  have hup : ∀ t ∈ Set.Icc (0:ℝ) (5 / 23), Real.exp (-t ^ 2)
      ≤ (1 - t ^ 2 + t ^ 4 / 2 - t ^ 6 / 6) + (25 / 529 : ℝ) ^ 4 * (5 / 96) := by
    intro t ht
    have h := gauss_poly_bound t ht
    rw [abs_le] at h
    linarith [h.2]
  have hlo : ∀ t ∈ Set.Icc (0:ℝ) (5 / 23),
      (1 - t ^ 2 + t ^ 4 / 2 - t ^ 6 / 6) - (25 / 529 : ℝ) ^ 4 * (5 / 96)
        ≤ Real.exp (-t ^ 2) := by
    intro t ht
    have h := gauss_poly_bound t ht
    rw [abs_le] at h
    linarith [h.1]
  have hIu : (∫ t in (0:ℝ)..(5 / 23), Real.exp (-t ^ 2))
      ≤ ∫ t in (0:ℝ)..(5 / 23),
          ((1 - t ^ 2 + t ^ 4 / 2 - t ^ 6 / 6) + (25 / 529 : ℝ) ^ 4 * (5 / 96)) :=
    intervalIntegral.integral_mono_on (by norm_num) (hcg.intervalIntegrable _ _)
      (hcpu.intervalIntegrable _ _) hup
  have hIl : (∫ t in (0:ℝ)..(5 / 23),
        ((1 - t ^ 2 + t ^ 4 / 2 - t ^ 6 / 6) - (25 / 529 : ℝ) ^ 4 * (5 / 96)))
      ≤ ∫ t in (0:ℝ)..(5 / 23), Real.exp (-t ^ 2) :=
    intervalIntegral.integral_mono_on (by norm_num) (hcpl.intervalIntegrable _ _)
      (hcg.intervalIntegrable _ _) hlo
  have hpc : Continuous fun t : ℝ => (1 - t ^ 2 + t ^ 4 / 2 - t ^ 6 / 6 : ℝ) := by fun_prop
  have hvu : (∫ t in (0:ℝ)..(5 / 23),
        ((1 - t ^ 2 + t ^ 4 / 2 - t ^ 6 / 6) + (25 / 529 : ℝ) ^ 4 * (5 / 96)))
      = ((5 / 23 : ℝ) - (5 / 23) ^ 3 / 3 + (5 / 23) ^ 5 / 10 - (5 / 23) ^ 7 / 42)
          + (25 / 529 : ℝ) ^ 4 * (5 / 96) * (5 / 23) := by
    rw [intervalIntegral.integral_add (hpc.intervalIntegrable _ _)
      (intervalIntegrable_const), integral_gauss_poly, intervalIntegral.integral_const]
    simp [smul_eq_mul]
    ring
  have hvl : (∫ t in (0:ℝ)..(5 / 23),
        ((1 - t ^ 2 + t ^ 4 / 2 - t ^ 6 / 6) - (25 / 529 : ℝ) ^ 4 * (5 / 96)))
      = ((5 / 23 : ℝ) - (5 / 23) ^ 3 / 3 + (5 / 23) ^ 5 / 10 - (5 / 23) ^ 7 / 42)
          - (25 / 529 : ℝ) ^ 4 * (5 / 96) * (5 / 23) := by
    rw [intervalIntegral.integral_sub (hpc.intervalIntegrable _ _)
      (intervalIntegrable_const), integral_gauss_poly, intervalIntegral.integral_const]
    simp [smul_eq_mul]
    ring
  rw [hvu] at hIu
  rw [hvl] at hIl
  constructor
  · refine le_trans ?_ hIl
    norm_num
  · refine le_trans hIu ?_
    norm_num

/-- Rational bounds on `erfc(5/23)`. -/
theorem erfc_5_23_bounds :
    (0.7585101 : ℝ) ≤ erfc_x (5 / 23) ∧ erfc_x (5 / 23) ≤ (0.7585103 : ℝ) := by
  obtain ⟨hI1, hI2⟩ := gauss_integral_bounds
  obtain ⟨hs1, hs2⟩ := sqrt_pi_bounds
  have hspos : (0:ℝ) < Real.sqrt Real.pi := by linarith
  unfold erfc_x erf
  have hIpos : (0:ℝ) ≤ ∫ t in (0:ℝ)..(5 / 23), Real.exp (-t ^ 2) := by linarith
  constructor
  · have h : 2 / Real.sqrt Real.pi * (∫ t in (0:ℝ)..(5 / 23), Real.exp (-t ^ 2))
        ≤ 2 * 0.21401481 / 1.7724538509 := by
      rw [div_mul_eq_mul_div]
      exact div_le_div₀ (by norm_num) (by linarith) (by norm_num) hs1
    have hval : (2 * 0.21401481 / 1.7724538509 : ℝ) ≤ 0.2414899 := by norm_num
    linarith
  · have h : (2 * 0.21401468 / 1.7724538510 : ℝ)
        ≤ 2 / Real.sqrt Real.pi * (∫ t in (0:ℝ)..(5 / 23), Real.exp (-t ^ 2)) := by
      rw [div_mul_eq_mul_div]
      exact div_le_div₀ (by linarith) (by linarith) hspos hs2
    have hval : (0.2414897 : ℝ) ≤ 2 * 0.21401468 / 1.7724538510 := by norm_num
    linarith

/-- Symbolic value of the unscreened monopole self-energy of the test scheme. -/
theorem self_energy_eval_unscreened_mono :
    (RealSpaceEwald.new 29 0.1 none).self_energy [2] [0] = -(0.4 / Real.sqrt Real.pi) := by
  simp only [RealSpaceEwald.self_energy, RealSpaceEwald.self_energy_prefactors,
    RealSpaceEwald.new, RealSpaceEwald.SQRT_PI, Option.map_none', Option.getD_none,
    List.map_cons, List.map_nil, List.sum_cons, List.sum_nil]
  norm_num [Real.exp_zero]
  ring

/-- Symbolic value of the unscreened dipole self-energy of the test scheme. -/
theorem self_energy_eval_unscreened_dip :
    (RealSpaceEwald.new 29 0.1 none).self_energy [0] [Real.sqrt 2]
      = -(1 / (750 * Real.sqrt Real.pi)) := by
  have h2 : (Real.sqrt 2) ^ 2 = 2 := Real.sq_sqrt (by norm_num)
  have hsp : Real.sqrt Real.pi ≠ 0 := ne_of_gt (Real.sqrt_pos.mpr Real.pi_pos)
  simp only [RealSpaceEwald.self_energy, RealSpaceEwald.self_energy_prefactors,
    RealSpaceEwald.new, RealSpaceEwald.SQRT_PI, Option.map_none', Option.getD_none,
    List.map_cons, List.map_nil, List.sum_cons, List.sum_nil]
  rw [h2]
  norm_num [Real.exp_zero]
  field_simp
  ring

/-- Symbolic value of the screened monopole self-energy of the test scheme. -/
theorem self_energy_eval_screened_mono :
    (RealSpaceEwald.new 29 0.1 (some 23)).self_energy [2] [0]
      = 2 / 23 * erfc_x (5 / 23) - 0.4 * Real.exp (-(25 / 529)) / Real.sqrt Real.pi := by
  have hsp : Real.sqrt Real.pi ≠ 0 := ne_of_gt (Real.sqrt_pos.mpr Real.pi_pos)
  simp only [RealSpaceEwald.self_energy, RealSpaceEwald.self_energy_prefactors,
    RealSpaceEwald.new, RealSpaceEwald.SQRT_PI, Option.map_some', Option.getD_some,
    List.map_cons, List.map_nil, List.sum_cons, List.sum_nil]
  norm_num
  field_simp
  ring

/-- Symbolic value of the screened dipole self-energy of the test scheme. -/
theorem self_energy_eval_screened_dip :
    (RealSpaceEwald.new 29 0.1 (some 23)).self_energy [0] [Real.sqrt 2]
      = -(erfc_x (5 / 23) / 36501)
        - 479 / 396750 * Real.exp (-(25 / 529)) / Real.sqrt Real.pi := by
  have h2 : (Real.sqrt 2) ^ 2 = 2 := Real.sq_sqrt (by norm_num)
  have hsp : Real.sqrt Real.pi ≠ 0 := ne_of_gt (Real.sqrt_pos.mpr Real.pi_pos)
  simp only [RealSpaceEwald.self_energy, RealSpaceEwald.self_energy_prefactors,
    RealSpaceEwald.new, RealSpaceEwald.SQRT_PI, Option.map_some', Option.getD_some,
    List.map_cons, List.map_nil, List.sum_cons, List.sum_nil]
  rw [h2]
  norm_num
  field_simp
  ring

/-! ### The claims -/

/-- Claim C3: for every scheme in the family the switching function satisfies
`S(0) = 1` exactly; for `RealSpaceEwald` this holds both without screening
(`erfc 0 = 1`) and with any screening parameter (`½·(erfc(ζ/2η) + erfc(-ζ/2η))
= 1`), and for the spec-modelled `Plain` scheme trivially. -/
theorem claim_C3_short_range_f0_at_zero (rc alpha : ℝ) (d : Option ℝ) :
    (RealSpaceEwald.new rc alpha d).short_range_f0 0 = 1
      ∧ Plain.short_range_f0 0 = 1 := by
  refine ⟨?_, rfl⟩
  rcases d with _ | d
  · simp [RealSpaceEwald.new, RealSpaceEwald.short_range_f0, erfc_x_zero]
  · exact short_range_f0_zero_of_some _ (rc / d) (by simp [RealSpaceEwald.new])

/-- Claim C4: for every `RealSpaceEwald` scheme constructed without a Debye
length, `f0(q) = erfc(ηq)`, `f1(q) = -(2η/√π)·exp(-η²q²)`,
`f2(q) = (4η²/√π)·ηq·exp(-(ηq)²)` and `f3(q) = 4η³/√π·(1-2(ηq)²)·exp(-(ηq)²)`,
with `η = α·r꜀`. -/
theorem claim_C4_unscreened_closed_forms (rc alpha q : ℝ) :
    (RealSpaceEwald.new rc alpha none).short_range_f0 q = erfc_x (alpha * rc * q) ∧
    (RealSpaceEwald.new rc alpha none).short_range_f1 q
      = -(2 * (alpha * rc) / Real.sqrt Real.pi) * Real.exp (-(alpha * rc) ^ 2 * q ^ 2) ∧
    (RealSpaceEwald.new rc alpha none).short_range_f2 q
      = 4 * (alpha * rc) ^ 2 / Real.sqrt Real.pi * (alpha * rc * q)
          * Real.exp (-(alpha * rc * q) ^ 2) ∧
    (RealSpaceEwald.new rc alpha none).short_range_f3 q
      = 4 * (alpha * rc) ^ 3 / Real.sqrt Real.pi * (1 - 2 * (alpha * rc * q) ^ 2)
          * Real.exp (-(alpha * rc * q) ^ 2) := by
  refine ⟨?_, ?_, ?_, ?_⟩ <;>
    simp only [RealSpaceEwald.new, RealSpaceEwald.short_range_f0, RealSpaceEwald.short_range_f1,
      RealSpaceEwald.short_range_f2, RealSpaceEwald.short_range_f3, RealSpaceEwald.SQRT_PI,
      Option.map_none'] <;> ring_nf

/-- Claim C1: for every `RealSpaceEwald` scheme constructed with a Debye length
`d` (so `ζ = r꜀/d`) and every `q`, the four short-range functions equal the
screened closed forms of spec §4.2.1, with `η = α·r꜀`. -/
theorem claim_C1_screened_closed_forms (rc alpha d q : ℝ) :
    (RealSpaceEwald.new rc alpha (some d)).short_range_f0 q
      = 1 / 2 * (erfc_x (alpha * rc * q + rc / d / (2 * (alpha * rc)))
            * Real.exp (2 * (rc / d) * q)
          + erfc_x (alpha * rc * q - rc / d / (2 * (alpha * rc)))) ∧
    (RealSpaceEwald.new rc alpha (some d)).short_range_f1 q
      = -(2 * (alpha * rc) / Real.sqrt Real.pi)
            * Real.exp (-(alpha * rc * q - rc / d / (2 * (alpha * rc))) ^ 2)
          + rc / d * erfc_x (alpha * rc * q + rc / d / (2 * (alpha * rc)))
            * Real.exp (2 * (rc / d) * q) ∧
    (RealSpaceEwald.new rc alpha (some d)).short_range_f2 q
      = 4 * (alpha * rc) ^ 2 / Real.sqrt Real.pi * (alpha * rc * q - rc / d / (alpha * rc))
            * Real.exp (-(alpha * rc * q - rc / d / (2 * (alpha * rc))) ^ 2)
          + 2 * (rc / d) ^ 2 * erfc_x (alpha * rc * q + rc / d / (2 * (alpha * rc)))
            * Real.exp (2 * (rc / d) * q) ∧
    (RealSpaceEwald.new rc alpha (some d)).short_range_f3 q
      = 4 * (alpha * rc) ^ 3 / Real.sqrt Real.pi
            * (1 - 2 * (alpha * rc * q - rc / d / (alpha * rc))
                  * (alpha * rc * q - rc / d / (2 * (alpha * rc)))
                - (rc / d) ^ 2 / (alpha * rc) ^ 2)
            * Real.exp (-(alpha * rc * q - rc / d / (2 * (alpha * rc))) ^ 2)
          + 4 * (rc / d) ^ 3 * erfc_x (alpha * rc * q + rc / d / (2 * (alpha * rc)))
            * Real.exp (2 * (rc / d) * q) := by
  refine ⟨?_, ?_, ?_, ?_⟩ <;>
    simp only [RealSpaceEwald.new, RealSpaceEwald.short_range_f0, RealSpaceEwald.short_range_f1,
      RealSpaceEwald.short_range_f2, RealSpaceEwald.short_range_f3, RealSpaceEwald.SQRT_PI,
      Option.map_some'] <;> ring_nf

/-- Claim C5: without a Debye length, the self-energy prefactors are exactly the
`ζ = 0` limit of the screened formulas: monopole `-η/√π`, dipole
`-2η³/(3√π)` with `η = α·r꜀`. -/
theorem claim_C5_self_energy_prefactors_no_salt (rc alpha : ℝ) :
    (RealSpaceEwald.new rc alpha none).self_energy_prefactors
      = ⟨some (-(alpha * rc) / Real.sqrt Real.pi),
         some (-(2 * (alpha * rc) ^ 3 / (3 * Real.sqrt Real.pi)))⟩ := by
  simp only [RealSpaceEwald.new, RealSpaceEwald.self_energy_prefactors, RealSpaceEwald.SQRT_PI,
    Option.map_none', Option.getD_none, SelfEnergyPrefactors.mk.injEq, Option.some.injEq]
  norm_num
  ring

/-- Claim C6: with a Debye length `d`, `kappa()` returns `ζ/r꜀ = 1/d`; without
one it returns `none`. -/
theorem claim_C6_kappa (rc alpha d : ℝ) (hrc : 0 < rc) (_hd : 0 < d) :
    (RealSpaceEwald.new rc alpha (some d)).kappa = some (1 / d) ∧
    (RealSpaceEwald.new rc alpha none).kappa = none := by
  constructor
  · simp only [RealSpaceEwald.new, RealSpaceEwald.kappa, Option.map_some', Option.some.injEq]
    rw [div_right_comm, div_self (ne_of_gt hrc)]
  · rfl

/-- Witness for claim C6 at `r꜀ = 29`, `α = 0.1`, Debye length `23`. -/
theorem claim_C6_kappa_witness :
    (RealSpaceEwald.new 29 0.1 (some 23)).kappa = some (1 / 23) ∧
    (RealSpaceEwald.new 29 0.1 none).kappa = none :=
  claim_C6_kappa 29 0.1 23 (by norm_num) (by norm_num)

/-- Claim C7: `EmpiricalPermittivity::permittivity(T)` errors exactly when `T`
lies strictly outside the closed validity interval (endpoints succeed), and
otherwise returns `c0 + c1·T + c2·T² + c3/T + c4·ln T` — no clamping. -/
theorem claim_C7_empirical_permittivity (m : EmpiricalPermittivity) (T : ℝ) :
    ((∃ e, m.permittivity T = Except.error e)
        ↔ (T < m.temperature_interval.1 ∨ T > m.temperature_interval.2)) ∧
    (m.temperature_interval.1 ≤ T → T ≤ m.temperature_interval.2 →
      m.permittivity T = Except.ok (m.coeffs 0 + m.coeffs 1 * T + m.coeffs 2 * T ^ 2
        + m.coeffs 3 / T + m.coeffs 4 * Real.log T)) := by
  unfold EmpiricalPermittivity.permittivity
  constructor
  · constructor
    · rintro ⟨e, he⟩
      by_contra hcon
      rw [if_neg hcon] at he
      exact Except.noConfusion he
    · intro h
      rw [if_pos h]
      exact ⟨_, rfl⟩
  · intro h1 h2
    rw [if_neg (by push_neg; exact ⟨h1, h2⟩)]

/-- Witness for claim C7: the `WATER` model evaluated at 298.15 K succeeds with
the model's closed form. -/
theorem claim_C7_empirical_permittivity_witness :
    WATER.permittivity 298.15 = Except.ok (WATER.coeffs 0 + WATER.coeffs 1 * 298.15
      + WATER.coeffs 2 * 298.15 ^ 2 + WATER.coeffs 3 / 298.15
      + WATER.coeffs 4 * Real.log 298.15) :=
  (claim_C7_empirical_permittivity WATER 298.15).2
    (by norm_num [WATER, EmpiricalPermittivity.new])
    (by norm_num [WATER, EmpiricalPermittivity.new])

/-- Claim C2: for every `RealSpaceEwald` scheme (screened or not) with
non-degenerate reduced splitting parameter `η ≠ 0`, `short_range_f1` is the
exact derivative of `short_range_f0`, `short_range_f2` of `short_range_f1`,
and `short_range_f3` of `short_range_f2`. -/
theorem claim_C2_derivative_chain (s : RealSpaceEwald) (q : ℝ) (hη : s.eta ≠ 0) :
    HasDerivAt (fun u => s.short_range_f0 u) (s.short_range_f1 q) q ∧
    HasDerivAt (fun u => s.short_range_f1 u) (s.short_range_f2 q) q ∧
    HasDerivAt (fun u => s.short_range_f2 u) (s.short_range_f3 q) q := by
  have hsp : Real.sqrt Real.pi ≠ 0 := ne_of_gt (Real.sqrt_pos.mpr Real.pi_pos)
  rcases hz : s.zeta with _ | ζ
  · -- unscreened case
    refine ⟨?_, ?_, ?_⟩ <;>
      simp only [RealSpaceEwald.short_range_f0, RealSpaceEwald.short_range_f1,
        RealSpaceEwald.short_range_f2, RealSpaceEwald.short_range_f3,
        RealSpaceEwald.SQRT_PI, hz]
    · have h := (hasDerivAt_erfc_x (s.eta * q)).comp q
        (by simpa using (hasDerivAt_id q).const_mul s.eta)
      convert h using 1
      ring_nf
    · have h := ((Real.hasDerivAt_exp (-s.eta ^ 2 * q ^ 2)).comp q
        ((hasDerivAt_pow 2 q).const_mul (-s.eta ^ 2))).const_mul
        (-2 * s.eta / Real.sqrt Real.pi)
      convert h using 1
      push_cast
      ring_nf
    · have hlin : HasDerivAt (fun u : ℝ => 4 * s.eta ^ 2 / Real.sqrt Real.pi * (s.eta * u))
          (4 * s.eta ^ 2 / Real.sqrt Real.pi * (s.eta * 1)) q :=
        ((hasDerivAt_id q).const_mul s.eta).const_mul (4 * s.eta ^ 2 / Real.sqrt Real.pi)
      have hexp : HasDerivAt (fun u : ℝ => Real.exp (-(s.eta * u) ^ 2))
          (Real.exp (-(s.eta * q) ^ 2) * -(2 * (s.eta * q) ^ 1 * (s.eta * 1))) q :=
        (Real.hasDerivAt_exp (-(s.eta * q) ^ 2)).comp q
          (((hasDerivAt_id q).const_mul s.eta).pow 2).neg
      have h := hlin.mul hexp
      convert h using 1
      ring_nf
  · -- screened case
    have key : Real.exp (-(s.eta * q + ζ / (2 * s.eta)) ^ 2) * Real.exp (2 * ζ * q)
        = Real.exp (-(s.eta * q - ζ / (2 * s.eta)) ^ 2) := by
      rw [← Real.exp_add]
      congr 1
      field_simp
      ring
    have hA : HasDerivAt (fun u : ℝ => s.eta * u + ζ / (2 * s.eta)) s.eta q :=
      hasDerivAt_affine _ _ _
    have hB : HasDerivAt (fun u : ℝ => s.eta * u - ζ / (2 * s.eta)) s.eta q :=
      hasDerivAt_affine_sub _ _ _
    have hexpz : HasDerivAt (fun u : ℝ => Real.exp (2 * ζ * u))
        (Real.exp (2 * ζ * q) * (2 * ζ * 1)) q :=
      (Real.hasDerivAt_exp (2 * ζ * q)).comp q
        (by simpa using ((hasDerivAt_id q).const_mul (2 * ζ)))
    have herfcA : HasDerivAt (fun u : ℝ => erfc_x (s.eta * u + ζ / (2 * s.eta)))
        (-(2 / Real.sqrt Real.pi * Real.exp (-(s.eta * q + ζ / (2 * s.eta)) ^ 2)) * s.eta) q :=
      (hasDerivAt_erfc_x (s.eta * q + ζ / (2 * s.eta))).comp q hA
    have herfcB : HasDerivAt (fun u : ℝ => erfc_x (s.eta * u - ζ / (2 * s.eta)))
        (-(2 / Real.sqrt Real.pi * Real.exp (-(s.eta * q - ζ / (2 * s.eta)) ^ 2)) * s.eta) q :=
      (hasDerivAt_erfc_x (s.eta * q - ζ / (2 * s.eta))).comp q hB
    have hexpB : HasDerivAt (fun u : ℝ => Real.exp (-(s.eta * u - ζ / (2 * s.eta)) ^ 2))
        (Real.exp (-(s.eta * q - ζ / (2 * s.eta)) ^ 2)
          * -(2 * (s.eta * q - ζ / (2 * s.eta)) ^ 1 * s.eta)) q :=
      (Real.hasDerivAt_exp (-(s.eta * q - ζ / (2 * s.eta)) ^ 2)).comp q (hB.pow 2).neg
    refine ⟨?_, ?_, ?_⟩ <;>
      simp only [RealSpaceEwald.short_range_f0, RealSpaceEwald.short_range_f1,
        RealSpaceEwald.short_range_f2, RealSpaceEwald.short_range_f3,
        RealSpaceEwald.SQRT_PI, hz]
    · have h := ((herfcA.mul hexpz).add herfcB).const_mul (0.5 : ℝ)
      convert h using 1
      rw [← key]
      field_simp
      ring
    · have h := (hexpB.const_mul (-2 * s.eta / Real.sqrt Real.pi)).add
        ((herfcA.const_mul ζ).mul hexpz)
      convert h using 1
      rw [← key]
      field_simp
      ring
    · have hlin : HasDerivAt
          (fun u : ℝ => 4 * s.eta ^ 2 / Real.sqrt Real.pi * (s.eta * u - ζ / s.eta))
          (4 * s.eta ^ 2 / Real.sqrt Real.pi * s.eta) q :=
        (hasDerivAt_affine_sub s.eta (ζ / s.eta) q).const_mul (4 * s.eta ^ 2 / Real.sqrt Real.pi)
      have h := (hlin.mul hexpB).add ((herfcA.const_mul (2 * ζ ^ 2)).mul hexpz)
      convert h using 1
      rw [← key]
      field_simp
      ring

/-- Witness for claim C2 at the concrete unscreened scheme `r꜀ = 1`, `α = 1`,
evaluated at `q = 1/2`. -/
theorem claim_C2_derivative_chain_witness :
    HasDerivAt (fun u => (RealSpaceEwald.new 1 1 none).short_range_f0 u)
      ((RealSpaceEwald.new 1 1 none).short_range_f1 (1 / 2)) (1 / 2) :=
  (claim_C2_derivative_chain (RealSpaceEwald.new 1 1 none) (1 / 2)
    (by norm_num [RealSpaceEwald.new])).1

/-- Claim C8: the four self-energy reference values of the `RealSpaceEwald`
scheme with `r꜀ = 29`, `α = 0.1`: unscreened monopole and dipole values within
`1e-8`, and screened (Debye length 23) values within `1e-7`. -/
theorem claim_C8_self_energy_reference_values :
    |(RealSpaceEwald.new 29 0.1 none).self_energy [2] [0] + 0.2256758334| ≤ 1e-8 ∧
    |(RealSpaceEwald.new 29 0.1 none).self_energy [0] [Real.sqrt 2] + 0.000752257778| ≤ 1e-8 ∧
    |(RealSpaceEwald.new 29 0.1 (some 23)).self_energy [2] [0] + 0.14930129209178544| ≤ 1e-7 ∧
    |(RealSpaceEwald.new 29 0.1 (some 23)).self_energy [0] [Real.sqrt 2] + 0.0006704901976|
      ≤ 1e-7 := by
  obtain ⟨hs1, hs2⟩ := sqrt_pi_bounds
  obtain ⟨hE1, hE2⟩ := exp_neg_25_529_bounds
  obtain ⟨hR1, hR2⟩ := erfc_5_23_bounds
  have hspos : (0:ℝ) < Real.sqrt Real.pi := by linarith
  rw [self_energy_eval_unscreened_mono, self_energy_eval_unscreened_dip,
    self_energy_eval_screened_mono, self_energy_eval_screened_dip]
  have hX1 : (0.4 : ℝ) / 1.7724538510 ≤ 0.4 / Real.sqrt Real.pi :=
    div_le_div₀ (by norm_num) (le_refl _) hspos hs2
  have hX2 : (0.4 : ℝ) / Real.sqrt Real.pi ≤ 0.4 / 1.7724538509 :=
    div_le_div₀ (by norm_num) (le_refl _) (by norm_num) hs1
  have hY1 : (1 : ℝ) / (750 * 1.7724538510) ≤ 1 / (750 * Real.sqrt Real.pi) :=
    div_le_div₀ (by norm_num) (le_refl _) (by positivity) (by linarith)
  have hY2 : (1 : ℝ) / (750 * Real.sqrt Real.pi) ≤ 1 / (750 * 1.7724538509) :=
    div_le_div₀ (by norm_num) (le_refl _) (by norm_num) (by linarith)
  have hZ1 : (0.4 * 0.95384033 : ℝ) / 1.7724538510
      ≤ 0.4 * Real.exp (-(25 / 529)) / Real.sqrt Real.pi :=
    div_le_div₀ (by positivity) (by linarith) hspos hs2
  have hZ2 : 0.4 * Real.exp (-(25 / 529)) / Real.sqrt Real.pi
      ≤ (0.4 * 0.95384035 : ℝ) / 1.7724538509 :=
    div_le_div₀ (by norm_num) (by linarith) (by norm_num) hs1
  have hW1 : (479 / 396750 * 0.95384033 : ℝ) / 1.7724538510
      ≤ 479 / 396750 * Real.exp (-(25 / 529)) / Real.sqrt Real.pi :=
    div_le_div₀ (by positivity) (by linarith) hspos hs2
  have hW2 : 479 / 396750 * Real.exp (-(25 / 529)) / Real.sqrt Real.pi
      ≤ (479 / 396750 * 0.95384035 : ℝ) / 1.7724538509 :=
    div_le_div₀ (by norm_num) (by linarith) (by norm_num) hs1
  have n1 : (0.4 : ℝ) / 1.7724538509 ≤ 0.2256758334 + 1e-8 := by norm_num
  have n2 : (0.2256758334 - 1e-8 : ℝ) ≤ 0.4 / 1.7724538510 := by norm_num
  have n3 : (1 : ℝ) / (750 * 1.7724538509) ≤ 0.000752257778 + 1e-8 := by norm_num
  have n4 : (0.000752257778 - 1e-8 : ℝ) ≤ 1 / (750 * 1.7724538510) := by norm_num
  have n5 : (-0.14930129209178544 - 1e-7 : ℝ)
      ≤ 2 / 23 * 0.7585101 - 0.4 * 0.95384035 / 1.7724538509 := by norm_num
  have n6 : (2 / 23 * 0.7585103 - 0.4 * 0.95384033 / 1.7724538510 : ℝ)
      ≤ -0.14930129209178544 + 1e-7 := by norm_num
  have n7 : (-0.0006704901976 - 1e-7 : ℝ)
      ≤ -(0.7585103 / 36501) - 479 / 396750 * 0.95384035 / 1.7724538509 := by norm_num
  have n8 : (-(0.7585101 / 36501) - 479 / 396750 * 0.95384033 / 1.7724538510 : ℝ)
      ≤ -0.0006704901976 + 1e-7 := by norm_num
  refine ⟨?_, ?_, ?_, ?_⟩ <;> rw [abs_le] <;>
    exact ⟨by linarith, by linarith⟩

/-- Claim C9: for every permittivity model (given through its `permittivity`
function) and every temperature, the provided trait method `temperature_is_ok`
returns `true` exactly when `permittivity` succeeds. -/
theorem claim_C9_temperature_is_ok_iff (p : ℝ → Except String ℝ) (T : ℝ) :
    temperature_is_ok p T = true ↔ ∃ v, p T = Except.ok v := by
  unfold temperature_is_ok
  cases h : p T <;> simp [Except.isOk, Except.toBool, h]

/-- Claim C10: `ConstantPermittivity::permittivity` always succeeds with the
stored constant, ignores its temperature argument entirely, and
`temperature_is_ok` is `true` on every input for this model. -/
theorem claim_C10_constant_permittivity (c : ConstantPermittivity) (T : ℝ) :
    c.permittivity T = Except.ok c.eps ∧
    temperature_is_ok c.permittivity T = true ∧
    ∀ T' : ℝ, c.permittivity T = c.permittivity T' :=
  ⟨rfl, rfl, fun _ => rfl⟩

end Coulomb
